import Mathlib

/-!
# A shallow embedding of the `bptree` repository

This file models the B+ tree engine of `src/bptree/bptree.ts` (a B+ tree
layered over an ordered key-value store) together with the reference
`src/database/InMemoryDatabase.ts` oracle, and settles the frozen claims
about them.

Modelling conventions:

* The backing store is an association list from record keys to parsed record
  bodies (`Val`).  The TypeScript code serializes nodes with `JSON.stringify`
  and re-parses them on read; serialization round-trips, so the model stores
  the parsed bodies directly.
* JavaScript exceptions (`TypeError` from reading a field of `undefined`,
  spreading `undefined`, and so on) are modelled as `Except.error ()`.
  A record that is missing, or whose body does not have the fields the
  caller reads (`JSON.parse("{}")`, an internal node read where a leaf is
  expected, the metadata record read as a node), makes every caller in this
  file fail on its very first field access, so such reads are modelled as
  an immediate error.
* JavaScript `undefined` flowing through ordinary data (array reads out of
  range) is modelled with `Option`.
* `Date.now() + Math.random()` node-identifier suffixes are modelled by a
  counter held in the tree state (the spec only requires process-local
  uniqueness of the suffix).
* String comparison is JavaScript's code-unit lexicographic `<`, modelled
  on the code points of the Lean string (identical for all strings in this
  development).
* Loops that walk a chain of node records (`list`'s sibling walk) are given
  fuel; the fuel is one more than the store size, which bounds the number of
  distinct records a non-cyclic walk can visit.  Binary-search loops are
  given fuel bounding their iteration count (`right - left` shrinks by at
  least one per iteration).
-/

namespace BPTree

/-! ## JavaScript primitives -/

/-- JS `<` on two strings: code-unit lexicographic comparison, modelled on
the code points of the underlying character lists. -/
def strLtB : List Char → List Char → Bool
  | [], [] => false
  | [], _ :: _ => true
  | _ :: _, [] => false
  | a :: as, b :: bs => if a = b then strLtB as bs else decide (a.val < b.val)

/-- JS `a < b` for strings. -/
def jsLtB (a b : String) : Bool := strLtB a.data b.data

/-- JS `a <= b` for strings (total order, so `a <= b` iff not `b < a`). -/
def jsLeB (a b : String) : Bool := !(jsLtB b a)

/-- JS truthiness of a possibly-undefined string: `undefined` and `""` are
falsy. -/
def strTruthy : Option String → Bool
  | none => false
  | some s => s ≠ ""

/-- JS `a || b` for a possibly-undefined string `a` and a string `b`. -/
def jsOrS (a : Option String) (b : String) : String :=
  if strTruthy a then a.getD "" else b

/-- `xs[i]` for a JS (possibly negative) index: out of range is `undefined`. -/
def jsGet (xs : List α) (i : Int) : Option α :=
  if i < 0 then none else xs.get? i.toNat

/-- JS `Array.prototype.splice(start, 0, x)`: a negative `start` is clamped
to `max(length + start, 0)`, a too-large one to `length`; then `x` is
inserted at that position. -/
def jsSpliceIns (xs : List α) (start : Int) (x : α) : List α :=
  let i := if start < 0 then (start + xs.length).toNat else min start.toNat xs.length
  xs.take i ++ x :: xs.drop i

/-- JS `Array.prototype.splice(start, 1)`: same clamping, then one element
removed at that position (none if the position is past the end). -/
def jsSpliceDel (xs : List α) (start : Int) : List α :=
  let i := if start < 0 then (start + xs.length).toNat else min start.toNat xs.length
  xs.take i ++ xs.drop (i + 1)

/-- JS `xs[i] = v` for an index already in range; other indices leave the
array's elements unchanged (a negative index writes a plain property, an
index past the end is not reached in this development). -/
def jsSetAt (xs : List α) (i : Int) (v : α) : List α :=
  if 0 ≤ i ∧ i.toNat < xs.length then xs.set i.toNat v else xs

/-- JS `Array.prototype.indexOf`: first index of `x`, `-1` when absent. -/
def jsIndexOfGo [DecidableEq α] (x : α) : List α → Int → Int
  | [], _ => -1
  | a :: as, i => if a = x then i else jsIndexOfGo x as (i + 1)

/-- JS `xs.indexOf(x)`. -/
def jsIndexOf [DecidableEq α] (xs : List α) (x : α) : Int := jsIndexOfGo x xs 0

/-- JS `Array.prototype.findIndex`: first index satisfying `p`, `-1` when
none does. -/
def jsFindIndexGo (p : α → Bool) : List α → Int → Int
  | [], _ => -1
  | a :: as, i => if p a then i else jsFindIndexGo p as (i + 1)

/-- JS `xs.findIndex(p)`. -/
def jsFindIndex (xs : List α) (p : α → Bool) : Int := jsFindIndexGo p xs 0

/-- `Math.ceil(n / 2)` for a nonnegative integer `n`. -/
def ceilHalf (n : Nat) : Nat := (n + 1) / 2

/-! ## Data model (`bptree.ts` lines 1-30) -/

/-- `LEAF_PREFIX` of the source. -/
def LEAF_PREFIX : String := "00"

/-- `INTERNAL_PREFIX` of the source. -/
def INTERNAL_PREFIX : String := "01"

/-- `METADATA_KEY` of the source. -/
def METADATA_KEY : String := "__BPTREE_METADATA__"

/-- A leaf node body (`LeafNode` of the source). -/
structure LeafNode where
  keys : List String
  values : List String
  next : Option String := none
deriving DecidableEq, Repr

/-- An internal node body (`InternalNode` of the source). -/
structure InternalNode where
  keys : List String
  children : List String
deriving DecidableEq, Repr

/-- One step of a captured root-to-leaf path (`NodePath` of the source).
`index` is the child index chosen at this node during the descent; the final
leaf entry carries the placeholder `-1` ("Leaf node doesn't need an index"). -/
structure NodePath where
  id : String
  index : Int
deriving DecidableEq, Repr

/-- A parsed record body held in the backing store: a leaf, an internal node,
or the tree metadata `{rootId, height}` (`TreeMetadata` of the source). -/
inductive Val where
  | leaf (l : LeafNode)
  | internal (n : InternalNode)
  | meta (rootId : String) (height : Nat)
deriving DecidableEq, Repr

/-- The backing ordered key-value store, as an association list.  The tree
reaches it only through `get` and `write` (spec §4.1), so the physical order
of the entries is irrelevant; writes replace in place or append. -/
abbrev Store := List (String × Val)

/-- `store.get(k)`. -/
def storeGet (s : Store) (k : String) : Option Val :=
  (s.find? (fun p => p.1 = k)).map (·.2)

/-- One `set` entry of a `store.write` batch: replace in place, else append. -/
def storeSet : Store → String → Val → Store
  | [], k, v => [(k, v)]
  | (k', v') :: rest, k, v =>
    if k' = k then (k, v) :: rest else (k', v') :: storeSet rest k v

/-- One `delete` entry of a `store.write` batch. -/
def storeDelete : Store → String → Store
  | [], _ => []
  | (k', v') :: rest, k => if k' = k then rest else (k', v') :: storeDelete rest k

/-- `store.write({set, delete})`: all `set` entries in order, then all
`delete` entries in order (spec §5 ordering guarantee). -/
def storeWrite (s : Store) (sets : List (String × Val)) (dels : List String) : Store :=
  dels.foldl storeDelete (sets.foldl (fun s p => storeSet s p.1 p.2) s)

/-- The in-memory tree state: the backing store plus the `rootId`/`height`
fields of the `BPlusTree` object, its two size bounds, and the counter that
stands in for the time-plus-random identifier suffixes. -/
structure TreeState where
  store : Store
  rootId : String
  height : Nat
  maxLeafSize : Nat
  maxInternalSize : Nat
  ctr : Nat
deriving DecidableEq, Repr

/-- Apply a `this.store.write({set, delete})` call to the tree state. -/
def twrite (s : TreeState) (sets : List (String × Val)) (dels : List String) : TreeState :=
  { s with store := storeWrite s.store sets dels }

/-- A fresh leaf identifier (`LEAF_PREFIX + Date.now() + random suffix`). -/
def newLeafId (s : TreeState) : String × TreeState :=
  (LEAF_PREFIX ++ "t" ++ toString s.ctr, { s with ctr := s.ctr + 1 })

/-- A fresh internal identifier (`INTERNAL_PREFIX + Date.now() + random`). -/
def newInternalId (s : TreeState) : String × TreeState :=
  (INTERNAL_PREFIX ++ "t" ++ toString s.ctr, { s with ctr := s.ctr + 1 })

/-- `saveMetadata()` (source lines 71-80). -/
def saveMetadata (s : TreeState) : TreeState :=
  twrite s [(METADATA_KEY, .meta s.rootId s.height)] []

/-- `init()` (source lines 45-69): adopt existing metadata, else create the
empty root leaf and the metadata record.  (A non-metadata body stored under
`METADATA_KEY` would be adopted as garbage in JS; the tree never writes one
and no claim exercises that, so it is routed to the fresh branch here.) -/
def initState (store : Store) (maxLeafSize maxInternalSize : Nat) : TreeState :=
  match storeGet store METADATA_KEY with
  | some (.meta rootId height) =>
    { store, rootId, height, maxLeafSize, maxInternalSize, ctr := 0 }
  | _ =>
    let rootId := LEAF_PREFIX ++ "root"
    let store := storeWrite store
      [(rootId, .leaf { keys := [], values := [] }),
       (METADATA_KEY, .meta rootId 0)] []
    { store, rootId, height := 0, maxLeafSize, maxInternalSize, ctr := 0 }

/-! ## Node reads

`JSON.parse(this.store.get(id) || "{}") as LeafNode` (resp. `InternalNode`)
followed by a field access.  When the record is missing the parse yields
`{}`, whose `keys` is `undefined`, and the first access every caller makes
(`keys.indexOf`, `keys.length`, `values[i]`, `children[i]`) throws a
`TypeError`; when the record holds a body of the other role, or the
metadata, the accesses the caller makes likewise hit an `undefined` field.
Both are modelled as an immediate error. -/

/-- Read a record as a `LeafNode`. -/
def readLeaf (s : TreeState) (id : String) : Except Unit LeafNode :=
  match storeGet s.store id with
  | some (.leaf l) => .ok l
  | _ => .error ()

/-- Read a record as an `InternalNode`. -/
def readInternal (s : TreeState) (id : String) : Except Unit InternalNode :=
  match storeGet s.store id with
  | some (.internal n) => .ok n
  | _ => .error ()

/-! ## Search primitives (source lines 559-623) -/

/-- The loop of `findChildIndex`: binary search for the number of keys
`<= key`.  `fuel` bounds the iteration count (`right - left` shrinks every
round, so `keys.length + 1` is always enough). -/
def findChildIndexGo (keys : List String) (key : String) : Nat → Nat → Nat → Nat
  | 0, left, _ => left
  | fuel + 1, left, right =>
    if left < right then
      let mid := (left + right) / 2
      if jsLeB (keys.getD mid "") key then findChildIndexGo keys key fuel (mid + 1) right
      else findChildIndexGo keys key fuel left mid
    else left

/-- `findChildIndex(keys, key)` (source lines 590-604). -/
def findChildIndex (keys : List String) (key : String) : Nat :=
  findChildIndexGo keys key (keys.length + 1) 0 keys.length

/-- The loop of `findInsertIndex`: binary search for the first key `>= key`,
returning the exact position on equality. -/
def findInsertIndexGo (keys : List String) (key : String) : Nat → Nat → Nat → Nat
  | 0, left, _ => left
  | fuel + 1, left, right =>
    if left < right then
      let mid := (left + right) / 2
      if jsLtB (keys.getD mid "") key then findInsertIndexGo keys key fuel (mid + 1) right
      else if keys.getD mid "" = key then mid
      else findInsertIndexGo keys key fuel left mid
    else left

/-- `findInsertIndex(keys, key)` (source lines 606-622). -/
def findInsertIndex (keys : List String) (key : String) : Nat :=
  findInsertIndexGo keys key (keys.length + 1) 0 keys.length

/-- `node.children[index] || node.children[node.children.length - 1]`:
an in-range child, else the last child; an empty (or all-falsy) children
array leaves JS `undefined`, modelled as `""`, which no record key ever
equals, so the following read fails just as JS does. -/
def childAt (children : List String) (index : Nat) : String :=
  jsOrS (children.get? index)
    ((jsGet children ((children.length : Int) - 1)).getD "")

/-- The descent loop of `findLeaf` (source lines 576-588): `height` levels
down from the root. -/
def findLeafGo (s : TreeState) (key : String) : Nat → String → Except Unit String
  | 0, current => .ok current
  | level + 1, current =>
    match readInternal s current with
    | .error e => .error e
    | .ok node => findLeafGo s key level (childAt node.children (findChildIndex node.keys key))

/-- `findLeaf(key)`. -/
def findLeaf (s : TreeState) (key : String) : Except Unit String :=
  findLeafGo s key s.height s.rootId

/-- The descent loop of `findNodePath` (source lines 559-574), recording
`(id, chosen child index)` per internal level and ending with the leaf entry
`{id, index: -1}`. -/
def findNodePathGo (s : TreeState) (key : String) :
    Nat → String → List NodePath → Except Unit (List NodePath)
  | 0, current, path => .ok (path ++ [⟨current, -1⟩])
  | level + 1, current, path =>
    match readInternal s current with
    | .error e => .error e
    | .ok node =>
      let index := findChildIndex node.keys key
      findNodePathGo s key level (childAt node.children index)
        (path ++ [⟨current, (index : Int)⟩])

/-- `findNodePath(key)`. -/
def findNodePath (s : TreeState) (key : String) : Except Unit (List NodePath) :=
  findNodePathGo s key s.height s.rootId []

/-- `path[path.length - 1]` (the paths built above are never empty). -/
def pathLast (path : List NodePath) : NodePath :=
  (path.getLast?).getD ⟨"", -1⟩

/-! ## `get` (source lines 82-89) -/

/-- `get(key)`: descend to the leaf, scan for equality, return the paired
value or `undefined`. -/
def get (s : TreeState) (key : String) : Except Unit (Option String) :=
  match findLeaf s key with
  | .error e => .error e
  | .ok leafId =>
    match readLeaf s leafId with
    | .error e => .error e
    | .ok node =>
      let index := jsIndexOf node.keys key
      if index ≠ -1 then .ok (jsGet node.values index) else .ok none

/-! ## `list` (source lines 91-123)

The sync engine reads `gt`/`gte`/`lt`/`lte`/`limit` and ignores `offset`
and `reverse` (they are accepted in the argument type but never used). -/

/-- The argument record of `list` (`ListArgs` of the source). -/
structure ListArgs where
  gt : Option String := none
  gte : Option String := none
  lt : Option String := none
  lte : Option String := none
  limit : Option Nat := none
  offset : Option Nat := none
  reverse : Bool := false
deriving DecidableEq, Repr

/-- An emitted entry.  JS pushes `{key: node.keys[i], value: node.values[i]}`
where either read can be `undefined` (the loop can start at index `-1`). -/
abbrev Entry := Option String × Option String

/-- `args.limit && results.length >= args.limit` (`0` is falsy). -/
def limitHit (limit : Option Nat) (n : Nat) : Bool :=
  match limit with
  | none => false
  | some l => l ≠ 0 && n ≥ l

/-- `key >= bound` where `key` may be `undefined` (then the comparison is
false). -/
def jsGeUndef (key : Option String) (bound : String) : Bool :=
  match key with
  | some k => jsLeB bound k
  | none => false

/-- `key > bound` where `key` may be `undefined`. -/
def jsGtUndef (key : Option String) (bound : String) : Bool :=
  match key with
  | some k => jsLtB bound k
  | none => false

/-- What the in-leaf `for` loop does next: return from `list` with these
results, or fall through to the next leaf with them. -/
inductive ScanOut where
  | ret (acc : List Entry)
  | cont (acc : List Entry)
deriving DecidableEq, Repr

/-- The in-leaf loop `for (let i = startIndex; i < node.keys.length; i++)`
of `list`.  `i` is a JS number and `startIndex` can be `-1` (a failed
`findIndex`), in which case the first round reads `keys[-1] = undefined`.
`fuel` bounds the rounds; `keys.length + 2` always suffices. -/
def scanLeaf (node : LeafNode) (lt lte : Option String) (limit : Option Nat) :
    Nat → Int → List Entry → ScanOut
  | 0, _, acc => .cont acc
  | fuel + 1, i, acc =>
    if i < (node.keys.length : Int) then
      let key := jsGet node.keys i
      if strTruthy lt && jsGeUndef key (lt.getD "") then .ret acc
      else if strTruthy lte && jsGtUndef key (lte.getD "") then .ret acc
      else
        let acc := acc ++ [(key, jsGet node.values i)]
        if limitHit limit acc.length then .ret acc
        else scanLeaf node lt lte limit fuel (i + 1) acc
    else .cont acc

/-- The sibling-chain loop `while (current && current !== "")` of `list`.
`fuel` bounds the number of leaves visited (a cyclic chain would loop
forever in JS; here it runs out of fuel and errors, which no claim
exercises). -/
def listGo (s : TreeState) (gt gte lt lte : Option String) (limit : Option Nat) :
    Nat → String → List Entry → Except Unit (List Entry)
  | 0, _, _ => .error ()
  | fuel + 1, current, acc =>
    if current = "" then .ok acc
    else
      match readLeaf s current with
      | .error e => .error e
      | .ok node =>
        let startIndex : Int :=
          if strTruthy gt then jsFindIndex node.keys (fun k => jsLtB (gt.getD "") k)
          else if strTruthy gte then jsFindIndex node.keys (fun k => jsLeB (gte.getD "") k)
          else 0
        match scanLeaf node lt lte limit (node.keys.length + 2) startIndex acc with
        | .ret acc => .ok acc
        | .cont acc => listGo s gt gte lt lte limit fuel (node.next.getD "") acc

/-- `list(args)`: find the starting leaf from `args.gte || args.gt || ""`,
then walk the sibling chain.  `offset` and `reverse` are never read. -/
def list (s : TreeState) (args : ListArgs) : Except Unit (List Entry) :=
  match findLeaf s (jsOrS args.gte (jsOrS args.gt "")) with
  | .error e => .error e
  | .ok first => listGo s args.gt args.gte args.lt args.lte args.limit
      (s.store.length + 1) first []

/-! ## Insert and split (source lines 146-337) -/

/-- `splitInternalNode(nodeId, node, path)` (source lines 270-320).  The
recursion climbs the captured path, so `path.length + 1` rounds of fuel
always suffice; `keys[mid]` exists because the node being split holds more
than `maxInternalSize` keys. -/
def splitInternalNode (s : TreeState) (nodeId : String) (node : InternalNode)
    (path : List NodePath) : Nat → Except Unit TreeState
  | 0 => .error ()
  | fuel + 1 =>
    let mid := node.keys.length / 2
    let splitKey := node.keys.getD mid ""
    let (newNodeId, s) := newInternalId s
    let newNode : InternalNode :=
      ⟨node.keys.drop (mid + 1), node.children.drop (mid + 1)⟩
    let node : InternalNode := ⟨node.keys.take mid, node.children.take (mid + 1)⟩
    let s := twrite s [(nodeId, .internal node), (newNodeId, .internal newNode)] []
    if path.isEmpty then
      let (newRootId, s) := newInternalId s
      let s := twrite s [(newRootId, .internal ⟨[splitKey], [nodeId, newNodeId]⟩)] []
      let s := { s with rootId := newRootId, height := s.height + 1 }
      .ok (saveMetadata s)
    else
      let parentPath := path.dropLast
      let parentId := jsOrS ((parentPath.getLast?).map (·.id)) s.rootId
      match readInternal s parentId with
      | .error e => .error e
      | .ok parent =>
        let childIndex := (pathLast path).index
        let parent : InternalNode :=
          ⟨jsSpliceIns parent.keys childIndex splitKey,
           jsSpliceIns parent.children (childIndex + 1) newNodeId⟩
        if parent.keys.length > s.maxInternalSize then
          splitInternalNode s parentId parent parentPath fuel
        else .ok (twrite s [(parentId, .internal parent)] [])

/-- `updateParentAfterSplit(leftId, rightId, splitKey, path)` (source lines
322-337).  Note that the source takes `childIndex` from the **last** path
entry — which, for a leaf split, is the leaf's own entry with the
placeholder index `-1` — and feeds it to `splice`. -/
def updateParentAfterSplit (s : TreeState) (leftId rightId splitKey : String)
    (path : List NodePath) : Except Unit TreeState :=
  let parentPath := path.dropLast
  let parentId := jsOrS ((parentPath.getLast?).map (·.id)) s.rootId
  match readInternal s parentId with
  | .error e => .error e
  | .ok parent =>
    let childIndex := (pathLast path).index
    let parent : InternalNode :=
      ⟨jsSpliceIns parent.keys childIndex splitKey,
       jsSpliceIns parent.children (childIndex + 1) rightId⟩
    if parent.keys.length > s.maxInternalSize then
      splitInternalNode s parentId parent parentPath (parentPath.length + 1)
    else .ok (twrite s [(parentId, .internal parent)] [])

/-- `splitLeafNode(nodeId, node, path)` (source lines 228-268).  With an
empty path the split creates a fresh internal root and the source sets
`height = 1` (this branch is only reached when the root itself was the
leaf).  `newNode.keys` is nonempty whenever the split is triggered, so
`headD ""` is exact. -/
def splitLeafNode (s : TreeState) (nodeId : String) (node : LeafNode)
    (path : List NodePath) : Except Unit TreeState :=
  let mid := node.keys.length / 2
  let (newNodeId, s) := newLeafId s
  let newNode : LeafNode := ⟨node.keys.drop mid, node.values.drop mid, node.next⟩
  let node : LeafNode := ⟨node.keys.take mid, node.values.take mid, some newNodeId⟩
  let s := twrite s [(nodeId, .leaf node), (newNodeId, .leaf newNode)] []
  let splitKey := newNode.keys.headD ""
  if path.isEmpty then
    let (newRootId, s) := newInternalId s
    let s := twrite s [(newRootId, .internal ⟨[splitKey], [nodeId, newNodeId]⟩)] []
    let s := { s with rootId := newRootId, height := 1 }
    .ok (saveMetadata s)
  else
    updateParentAfterSplit s nodeId newNodeId splitKey path

/-- `insert(key, value)` (source lines 146-195). -/
def insert (s : TreeState) (key value : String) : Except Unit TreeState :=
  if s.height = 0 then
    match readLeaf s s.rootId with
    | .error e => .error e
    | .ok node =>
      let index := findInsertIndex node.keys key
      if index < node.keys.length ∧ node.keys.getD index "" = key then
        let node := { node with values := jsSetAt node.values (index : Int) value }
        .ok (twrite s [(s.rootId, .leaf node)] [])
      else
        let node : LeafNode :=
          ⟨jsSpliceIns node.keys (index : Int) key,
           jsSpliceIns node.values (index : Int) value, node.next⟩
        if node.keys.length > s.maxLeafSize then splitLeafNode s s.rootId node []
        else .ok (twrite s [(s.rootId, .leaf node)] [])
  else
    match findNodePath s key with
    | .error e => .error e
    | .ok path =>
      let leafId := (pathLast path).id
      match readLeaf s leafId with
      | .error e => .error e
      | .ok leafNode =>
        let index := findInsertIndex leafNode.keys key
        if index < leafNode.keys.length ∧ leafNode.keys.getD index "" = key then
          let leafNode := { leafNode with values := jsSetAt leafNode.values (index : Int) value }
          .ok (twrite s [(leafId, .leaf leafNode)] [])
        else
          let leafNode : LeafNode :=
            ⟨jsSpliceIns leafNode.keys (index : Int) key,
             jsSpliceIns leafNode.values (index : Int) value, leafNode.next⟩
          if leafNode.keys.length > s.maxLeafSize then splitLeafNode s leafId leafNode path
          else .ok (twrite s [(leafId, .leaf leafNode)] [])

/-! ## Remove, rebalance, borrow and merge (source lines 197-226, 339-557)

`rebalanceAfterDelete` handles "LeafNode | InternalNode" untyped unions and
re-parses siblings from the store; a sibling reference that is out of range
or missing parses to `{}`.  `JsNode` models that union, `emptyObj` standing
for a parse with none of the node fields.  A JS operation that would read or
spread an `undefined` field of such an object throws and is modelled as an
error; `pop`/`shift` on donors are guarded by the borrow predicate, which
forces a nonempty donor, so their empty cases are also modelled as errors
(JS instead pushes `undefined` into arrays there — no execution in this
development reaches those cases). -/

/-- A parsed record in an untyped position. -/
inductive JsNode where
  | leafN (l : LeafNode)
  | intN (n : InternalNode)
  | emptyObj
deriving DecidableEq, Repr

/-- `JSON.parse(this.store.get(id) || "{}")` for a possibly-undefined id. -/
def readAnyOpt (s : TreeState) (id? : Option String) : JsNode :=
  match id? with
  | none => .emptyObj
  | some id =>
    match storeGet s.store id with
    | some (.leaf l) => .leafN l
    | some (.internal n) => .intN n
    | _ => .emptyObj

/-- `sibling.keys.length` (throws on `{}`). -/
def keysLenOf : JsNode → Except Unit Nat
  | .leafN l => .ok l.keys.length
  | .intN n => .ok n.keys.length
  | .emptyObj => .error ()

/-- `borrowFromLeftSibling` (source lines 381-419): move the donor's last
key (and value or child) across the parent separator. -/
def borrowFromLeftSibling (s : TreeState) (nodeId : String) (node : JsNode)
    (leftSiblingId : Option String) (leftSibling : JsNode) (parentId : String)
    (parent : InternalNode) (childIndex : Int) : Except Unit TreeState :=
  match node, leftSibling with
  | .leafN ln, .leafN ls =>
    match ls.keys.getLast?, ls.values.getLast? with
    | some key, some value =>
      let node' : LeafNode := ⟨key :: ln.keys, value :: ln.values, ln.next⟩
      let ls' : LeafNode := ⟨ls.keys.dropLast, ls.values.dropLast, ls.next⟩
      let parent' := { parent with
        keys := jsSetAt parent.keys (childIndex - 1) (node'.keys.headD "") }
      .ok (twrite s [(nodeId, .leaf node'), (leftSiblingId.getD "", .leaf ls'),
        (parentId, .internal parent')] [])
    | _, _ => .error ()
  | .intN nn, .intN ls =>
    match jsGet parent.keys (childIndex - 1), ls.children.getLast?, ls.keys.getLast? with
    | some parentKey, some childId, some key =>
      let node' : InternalNode := ⟨parentKey :: nn.keys, childId :: nn.children⟩
      let ls' : InternalNode := ⟨ls.keys.dropLast, ls.children.dropLast⟩
      let parent' := { parent with keys := jsSetAt parent.keys (childIndex - 1) key }
      .ok (twrite s [(nodeId, .internal node'), (leftSiblingId.getD "", .internal ls'),
        (parentId, .internal parent')] [])
    | _, _, _ => .error ()
  | _, _ => .error ()

/-- `borrowFromRightSibling` (source lines 421-459): move the donor's first
key (and value or child) across the parent separator. -/
def borrowFromRightSibling (s : TreeState) (nodeId : String) (node : JsNode)
    (rightSiblingId : Option String) (rightSibling : JsNode) (parentId : String)
    (parent : InternalNode) (childIndex : Int) : Except Unit TreeState :=
  match node, rightSibling with
  | .leafN ln, .leafN rs =>
    match rs.keys.head?, rs.values.head? with
    | some key, some value =>
      let node' : LeafNode := ⟨ln.keys ++ [key], ln.values ++ [value], ln.next⟩
      let rs' : LeafNode := ⟨rs.keys.tail, rs.values.tail, rs.next⟩
      match rs'.keys.head? with
      | some newSep =>
        let parent' := { parent with keys := jsSetAt parent.keys childIndex newSep }
        .ok (twrite s [(nodeId, .leaf node'), (rightSiblingId.getD "", .leaf rs'),
          (parentId, .internal parent')] [])
      | none => .error ()
    | _, _ => .error ()
  | .intN nn, .intN rs =>
    match jsGet parent.keys childIndex, rs.children.head?, rs.keys.head? with
    | some parentKey, some childId, some key =>
      let node' : InternalNode := ⟨nn.keys ++ [parentKey], nn.children ++ [childId]⟩
      let rs' : InternalNode := ⟨rs.keys.tail, rs.children.tail⟩
      let parent' := { parent with keys := jsSetAt parent.keys childIndex key }
      .ok (twrite s [(nodeId, .internal node'), (rightSiblingId.getD "", .internal rs'),
        (parentId, .internal parent')] [])
    | _, _, _ => .error ()
  | _, _ => .error ()

mutual

/-- `rebalanceAfterDelete(nodeId, node, path)` (source lines 339-379): try
borrowing from the left then the right sibling (the threshold uses
`maxLeafSize` even for internal nodes, as in the source), else merge.  Note
that the source takes `childIndex` from the **last** path entry, which for a
call from `remove` is the leaf's placeholder `-1`.  The fuel bounds the
upward recursion; `path.length + 1` always suffices. -/
def rebalanceAfterDelete (s : TreeState) (nodeId : String) (node : JsNode)
    (path : List NodePath) : Nat → Except Unit TreeState
  | 0 => .error ()
  | fuel + 1 =>
    let parentPath := path.dropLast
    let parentId := jsOrS ((parentPath.getLast?).map (·.id)) s.rootId
    match readInternal s parentId with
    | .error e => .error e
    | .ok parent =>
      let childIndex := (pathLast path).index
      let leftCheck : Except Unit Bool :=
        if childIndex > 0 then
          match keysLenOf (readAnyOpt s (jsGet parent.children (childIndex - 1))) with
          | .error e => .error e
          | .ok llen => .ok (llen > ceilHalf s.maxLeafSize)
        else .ok false
      match leftCheck with
      | .error e => .error e
      | .ok true =>
        borrowFromLeftSibling s nodeId node (jsGet parent.children (childIndex - 1))
          (readAnyOpt s (jsGet parent.children (childIndex - 1))) parentId parent childIndex
      | .ok false =>
        let rightCheck : Except Unit Bool :=
          if childIndex < (parent.children.length : Int) - 1 then
            match keysLenOf (readAnyOpt s (jsGet parent.children (childIndex + 1))) with
            | .error e => .error e
            | .ok rlen => .ok (rlen > ceilHalf s.maxLeafSize)
          else .ok false
        match rightCheck with
        | .error e => .error e
        | .ok true =>
          borrowFromRightSibling s nodeId node (jsGet parent.children (childIndex + 1))
            (readAnyOpt s (jsGet parent.children (childIndex + 1))) parentId parent childIndex
        | .ok false =>
          if childIndex > 0 then
            mergeWithLeftSibling s nodeId node (jsGet parent.children (childIndex - 1))
              (readAnyOpt s (jsGet parent.children (childIndex - 1))) parentId parent
              childIndex parentPath fuel
          else
            mergeWithRightSibling s nodeId node (jsGet parent.children (childIndex + 1))
              (readAnyOpt s (jsGet parent.children (childIndex + 1))) parentId parent
              childIndex parentPath fuel
termination_by fuel => (fuel, 0)

/-- `mergeWithLeftSibling` (source lines 461-508): fold the node into its
left sibling, remove the boundary separator and the node from the parent,
then either rebalance the parent or demote an emptied root. -/
def mergeWithLeftSibling (s : TreeState) (nodeId : String) (node : JsNode)
    (leftSiblingId : Option String) (leftSibling : JsNode) (parentId : String)
    (parent : InternalNode) (childIndex : Int) (parentPath : List NodePath)
    (fuel : Nat) : Except Unit TreeState :=
  let mergedVal : Except Unit Val :=
    match node, leftSibling with
    | .leafN ln, .leafN ls =>
      .ok (.leaf ⟨ls.keys ++ ln.keys, ls.values ++ ln.values, ln.next⟩)
    | .intN nn, .intN ls =>
      match jsGet parent.keys (childIndex - 1) with
      | some parentKey => .ok (.internal ⟨ls.keys ++ parentKey :: nn.keys, ls.children ++ nn.children⟩)
      | none => .error ()
    | _, _ => .error ()
  match mergedVal with
  | .error e => .error e
  | .ok merged =>
    let parent' : InternalNode :=
      ⟨jsSpliceDel parent.keys (childIndex - 1), jsSpliceDel parent.children childIndex⟩
    let s := twrite s [(leftSiblingId.getD "", merged), (parentId, .internal parent')] [nodeId]
    if parent'.keys.length < ceilHalf s.maxInternalSize ∧ parentPath.length > 0 then
      rebalanceAfterDelete s parentId (.intN parent') parentPath fuel
    else if parent'.keys.length = 0 ∧ parentId = s.rootId then
      let s := { s with rootId := leftSiblingId.getD "", height := s.height - 1 }
      let s := twrite s [] [parentId]
      .ok (saveMetadata s)
    else .ok s
termination_by (fuel, 1)

/-- `mergeWithRightSibling` (source lines 510-557): fold the right sibling
into the node, remove the boundary separator and the sibling from the
parent, then either rebalance the parent or demote an emptied root. -/
def mergeWithRightSibling (s : TreeState) (nodeId : String) (node : JsNode)
    (rightSiblingId : Option String) (rightSibling : JsNode) (parentId : String)
    (parent : InternalNode) (childIndex : Int) (parentPath : List NodePath)
    (fuel : Nat) : Except Unit TreeState :=
  let mergedVal : Except Unit Val :=
    match node, rightSibling with
    | .leafN ln, .leafN rs =>
      .ok (.leaf ⟨ln.keys ++ rs.keys, ln.values ++ rs.values, rs.next⟩)
    | .intN nn, .intN rs =>
      match jsGet parent.keys childIndex with
      | some parentKey => .ok (.internal ⟨nn.keys ++ parentKey :: rs.keys, nn.children ++ rs.children⟩)
      | none => .error ()
    | _, _ => .error ()
  match mergedVal with
  | .error e => .error e
  | .ok merged =>
    let parent' : InternalNode :=
      ⟨jsSpliceDel parent.keys childIndex, jsSpliceDel parent.children (childIndex + 1)⟩
    let s := twrite s [(nodeId, merged), (parentId, .internal parent')]
      (match rightSiblingId with | some rid => [rid] | none => [])
    if parent'.keys.length < ceilHalf s.maxInternalSize ∧ parentPath.length > 0 then
      rebalanceAfterDelete s parentId (.intN parent') parentPath fuel
    else if parent'.keys.length = 0 ∧ parentId = s.rootId then
      let s := { s with rootId := nodeId, height := s.height - 1 }
      let s := twrite s [] [parentId]
      .ok (saveMetadata s)
    else .ok s
termination_by (fuel, 1)

end

/-- `remove(key)` (source lines 197-226): a missing key returns before any
write; an underflowing non-root leaf triggers the rebalance. -/
def remove (s : TreeState) (key : String) : Except Unit TreeState :=
  if s.height = 0 then
    match readLeaf s s.rootId with
    | .error e => .error e
    | .ok rootNode =>
      -- index = rootNode.keys.indexOf(key), inlined below
      if jsIndexOf rootNode.keys key = -1 then .ok s
      else
        .ok (twrite s [(s.rootId, .leaf
          ⟨jsSpliceDel rootNode.keys (jsIndexOf rootNode.keys key),
           jsSpliceDel rootNode.values (jsIndexOf rootNode.keys key),
           rootNode.next⟩)] [])
  else
    match findNodePath s key with
    | .error e => .error e
    | .ok path =>
      -- leafId = path[path.length - 1].id, inlined below
      match readLeaf s (pathLast path).id with
      | .error e => .error e
      | .ok leafNode =>
        if jsIndexOf leafNode.keys key = -1 then .ok s
        else
          let leafNode' : LeafNode :=
            ⟨jsSpliceDel leafNode.keys (jsIndexOf leafNode.keys key),
             jsSpliceDel leafNode.values (jsIndexOf leafNode.keys key), leafNode.next⟩
          if leafNode'.keys.length < ceilHalf s.maxLeafSize ∧ path.length > 1 then
            rebalanceAfterDelete s (pathLast path).id (.leafN leafNode') path (path.length + 1)
          else .ok (twrite s [((pathLast path).id, .leaf leafNode')] [])

/-! ## Public façade (source lines 125-144) -/

/-- `write(tx)`: all `set` entries in order through `insert`, then all
`delete` entries through `remove`.  A JS exception thrown mid-batch aborts
the remaining operations; the writes already made before the throw are not
inspected by any claim, so the error result drops them. -/
def writeOp (s : TreeState) (sets : List (String × String)) (dels : List String) :
    Except Unit TreeState :=
  match sets.foldlM (fun s kv => insert s kv.1 kv.2) s with
  | .error e => .error e
  | .ok s => dels.foldlM (fun s k => remove s k) s

/-- `set(key, value)` = `write({set: [{key, value}]})`. -/
def setOp (s : TreeState) (key value : String) : Except Unit TreeState :=
  writeOp s [(key, value)] []

/-- `delete(key)` = `write({delete: [key]})`. -/
def deleteOp (s : TreeState) (key : String) : Except Unit TreeState :=
  writeOp s [] [key]

/-- A public mutating operation. -/
inductive Op where
  | set (k v : String)
  | del (k : String)
deriving DecidableEq, Repr

/-- Apply one public operation. -/
def applyOp (s : TreeState) : Op → Except Unit TreeState
  | .set k v => setOp s k v
  | .del k => deleteOp s k

/-- Apply a sequence of public operations from a given state. -/
def applyOps (s : TreeState) : List Op → Except Unit TreeState
  | [] => .ok s
  | op :: rest =>
    match applyOp s op with
    | .error e => .error e
    | .ok s' => applyOps s' rest

/-! ## The reference oracle

`src/database/InMemoryDatabase.ts` keeps `data` sorted by the key comparator
and implements `write` through the `@ccorcos/ordered-array` package (an
external dependency of the repository): `insert` binary-searches and
replaces the element when the key is found, else inserts at the closest
position; `remove` deletes the element when found.  Both are modelled by
their sorted-array specification.  `InMemoryDatabase.list()` with no
arguments slices the whole `data` array, i.e. returns the data itself. -/

/-- Sorted-map insert with replace-on-equal (`ordered-array` `insert`). -/
def oracleInsert : List (String × String) → String → String → List (String × String)
  | [], k, v => [(k, v)]
  | (k', v') :: rest, k, v =>
    if jsLtB k k' then (k, v) :: (k', v') :: rest
    else if k = k' then (k, v) :: rest
    else (k', v') :: oracleInsert rest k v

/-- Sorted-map remove (`ordered-array` `remove`). -/
def oracleRemove : List (String × String) → String → List (String × String)
  | [], _ => []
  | (k', v') :: rest, k => if k = k' then rest else (k', v') :: oracleRemove rest k

/-- One public operation on the oracle (`InMemoryDatabase.write`). -/
def applyOracleOp (d : List (String × String)) : Op → List (String × String)
  | .set k v => oracleInsert d k v
  | .del k => oracleRemove d k

/-- A sequence of public operations on the oracle. -/
def applyOracle (ops : List Op) (d : List (String × String)) : List (String × String) :=
  ops.foldl applyOracleOp d

/-- The oracle's `list()` after a sequence of operations from empty, shaped
like the tree's entries. -/
def oracleEntries (ops : List Op) : List Entry :=
  (applyOracle ops []).map (fun kv => (some kv.1, some kv.2))

/-! ## Invariant I1 (spec §8)

"Following `next` from the leftmost leaf yields keys in strictly ascending
order matching `list({})`", where the leftmost leaf is the one the engine's
own empty-key descent reaches, and the chain must visit every leaf record of
the store. -/

/-- Strict ascent under the key comparator. -/
def strictAscB : List String → Bool
  | [] => true
  | [_] => true
  | a :: b :: rest => jsLtB a b && strictAscB (b :: rest)

/-- Collect the sibling chain from a leaf id (fuel-bounded; the fuel is
enough for any non-cyclic chain over the store). -/
def leafChainGo (s : TreeState) : Nat → String → Except Unit (List (String × LeafNode))
  | 0, _ => .error ()
  | fuel + 1, current =>
    if current = "" then .ok []
    else
      match storeGet s.store current with
      | some (.leaf l) =>
        match leafChainGo s fuel (l.next.getD "") with
        | .error e => .error e
        | .ok rest => .ok ((current, l) :: rest)
      | _ => .error ()

/-- The I1 sorted-leaf-chain invariant: the chain from the leftmost leaf
exists, visits every leaf record, carries strictly ascending keys, and its
entries are exactly `list({})`. -/
def I1holds (s : TreeState) : Bool :=
  match findLeaf s "" with
  | .error _ => false
  | .ok start =>
    match leafChainGo s (s.store.length + 1) start with
    | .error _ => false
    | .ok chain =>
      let ids := chain.map (fun p => p.1)
      let ks := (chain.map (fun p => p.2.keys)).flatten
      strictAscB ks &&
      s.store.all (fun p => match p.2 with | .leaf _ => ids.contains p.1 | _ => true) &&
      (match list s {} with
       | .ok es => es == (chain.map (fun p => (p.2.keys.zip p.2.values).map
           (fun kv => ((some kv.1 : Option String), (some kv.2 : Option String))))).flatten
       | .error _ => false)

/-! ## Concrete fixtures -/

/-- A tree with `maxLeafSize = 4` (spec §8 scenario 2) freshly initialized
over an empty backing store; `maxInternalSize` keeps its default. -/
def tree4 : TreeState := initState [] 4 32

/-- `set("a","a") … set("e","e")` in order. -/
def opsAtoE : List Op :=
  [.set "a" "a", .set "b" "b", .set "c" "c", .set "d" "d", .set "e" "e"]

/-- `opsAtoE` then `set("f","f")`. -/
def opsAtoF : List Op := opsAtoE ++ [.set "f" "f"]

/-- `opsAtoF` then `set("g","g")`: the seventh insert triggers the second
leaf split. -/
def opsAtoG : List Op := opsAtoF ++ [.set "g" "g"]

/-- A default-sized tree holding `a ↦ 1`, `b ↦ 2`, `c ↦ 3` (single leaf). -/
def treeABC : Except Unit TreeState :=
  applyOps (initState [] 32 32) [.set "a" "1", .set "b" "2", .set "c" "3"]

/-- A default-sized tree holding only `a ↦ 1`. -/
def treeA : Except Unit TreeState := applyOps (initState [] 32 32) [.set "a" "1"]

/-- A cold-start backing store: the metadata record survived but the root
node record it points to is missing (spec §4.2's tolerated state). -/
def coldStore : Store := [(METADATA_KEY, .meta (LEAF_PREFIX ++ "root") 0)]

/-- `list(args)` after a possibly-failing construction. -/
def listAfter (r : Except Unit TreeState) (args : ListArgs) : Except Unit (List Entry) :=
  match r with
  | .error e => .error e
  | .ok s => list s args

/-- `get(k)` after a possibly-failing construction. -/
def getAfter (r : Except Unit TreeState) (k : String) : Except Unit (Option String) :=
  match r with
  | .error e => .error e
  | .ok s => get s k

/-- Evaluate a state predicate after a possibly-failing construction
(`none` records that the operations themselves raised). -/
def checkAfter (r : Except Unit TreeState) (p : TreeState → Bool) : Option Bool :=
  match r with
  | .ok s => some (p s)
  | .error _ => none

/-- The spec §8 scenario-2 shape: height 1, root separator `["c"]`, left
leaf `["a","b"]` whose `next` is the right leaf `["c","d","e"]`. -/
def smallFanoutShape (s : TreeState) : Bool :=
  s.height == 1 &&
  (match storeGet s.store s.rootId with
   | some (.internal n) =>
     match n.keys, n.children with
     | [sep], [lid, rid] =>
       sep == "c" &&
       (match storeGet s.store lid, storeGet s.store rid with
        | some (.leaf l), some (.leaf r) =>
          l.keys == ["a", "b"] && r.keys == ["c", "d", "e"] && l.next == some rid
        | _, _ => false)
     | _, _ => false
   | _ => false)

/-! ## Claim theorems -/

/-- **C5** (confirmed).  With `maxLeafSize = 4`, inserting `"a".."e"` in
that order into a tree freshly initialized over an empty store yields, after
inserting `"e"`, height 1, a root internal node with keys `["c"]`, a left
leaf `["a","b"]` and a right leaf `["c","d","e"]`, the right leaf being the
left leaf's `next` sibling. -/
theorem C5_small_fanout_split :
    checkAfter (applyOps tree4 opsAtoE) smallFanoutShape = some true := by decide

/-- **C1** (code_bug evidence).  Applying seven `set` operations to a tree
freshly initialized over an empty store makes the engine's `list()` return
only the last three entries, while the reference sorted map holds all
seven: the second leaf split feeds the leaf's placeholder path index `-1`
into the parent update, prepending the new leaf and unsorting the root
keys. -/
theorem C1_list_oracle_divergence :
    listAfter (applyOps tree4 opsAtoG) {} =
      .ok [(some "e", some "e"), (some "f", some "f"), (some "g", some "g")]
    ∧ oracleEntries opsAtoG =
      [(some "a", some "a"), (some "b", some "b"), (some "c", some "c"),
       (some "d", some "d"), (some "e", some "e"), (some "f", some "f"),
       (some "g", some "g")]
    ∧ ([(some "e", some "e"), (some "f", some "f"), (some "g", some "g")] : List Entry)
        ≠ oracleEntries opsAtoG :=
  ⟨rfl, rfl, by decide⟩

/-- **C2** (code_bug evidence).  On the reachable state after `opsAtoF`, the
very next operation `set("g","g")` succeeds but `get("g")` then returns
absent: the corrupted root (keys `["e","c"]`) routes the descent for `"g"`
to the wrong leaf. -/
theorem C2_set_get_divergence :
    getAfter (applyOps tree4 opsAtoG) "g" = .ok none := rfl

/-- **C3** (code_bug evidence).  On a single-leaf tree holding only
`a ↦ 1`, `list({gt: "a"})` must return no entries, but the failed
`findIndex` yields `-1` and the emission loop starts there: the result is a
junk `undefined` entry followed by the entry `("a","1")` itself, whose key
is not strictly greater than `"a"`. -/
theorem C3_gt_bound_violated :
    listAfter treeA { gt := some "a" } = .ok [(none, none), (some "a", some "1")] := rfl

/-- **C4** (code_bug evidence).  The I1 sorted-leaf-chain invariant holds on
the reachable state after `opsAtoF` and is destroyed by the single public
operation `set("g","g")`: afterwards the empty-key descent reaches the new
right leaf directly, so the chain from that leaf misses the other leaves and
no longer matches `list({})`. -/
theorem C4_invariant_not_preserved :
    checkAfter (applyOps tree4 opsAtoF) I1holds = some true
    ∧ checkAfter (applyOps tree4 opsAtoG) I1holds = some false :=
  ⟨by decide, by decide⟩

/-- **C6** (code_bug evidence).  The engine's `list` never reads `offset` or
`reverse`: on a single-leaf tree with entries `a, b, c`, both
`list({reverse: true})` and `list({offset: 1})` return the unmodified
in-order collection instead of the reversed (resp. offset-dropped) one. -/
theorem C6_offset_reverse_not_applied :
    listAfter treeABC { reverse := true } =
      .ok [(some "a", some "1"), (some "b", some "2"), (some "c", some "3")]
    ∧ listAfter treeABC { offset := some 1 } =
      .ok [(some "a", some "1"), (some "b", some "2"), (some "c", some "3")] :=
  ⟨rfl, rfl⟩

/-- **C8** (code_bug evidence).  Over a cold-start store holding only the
metadata record, `get` does not treat the missing root record as a
zero-entry leaf: `JSON.parse("{}")` has no `keys` field and the
`keys.indexOf` call raises a `TypeError` (modelled as an error) instead of
returning absent. -/
theorem C8_missing_record_raises :
    get (initState coldStore 32 32) "a" = .error () := rfl

/-! ## Supporting lemmas for the universal claims -/

/-- A successful `store.get` returns a binding present in the store. -/
theorem storeGet_mem {st : Store} {k : String} {v : Val}
    (h : storeGet st k = some v) : (k, v) ∈ st := by
  unfold storeGet at h
  cases hf : st.find? (fun p => p.1 = k) with
  | none => rw [hf] at h; cases h
  | some p =>
    rw [hf] at h
    have hm := List.mem_of_find?_eq_some hf
    have hp : p.1 = k := by
      have := List.find?_some hf
      simpa using this
    have hv : p.2 = v := by simpa using h
    have : p = (k, v) := by
      cases p
      simp_all
    rwa [this] at hm

/-- A successful leaf read returns a leaf record present in the store. -/
theorem readLeaf_ok_mem {s : TreeState} {id : String} {l : LeafNode}
    (h : readLeaf s id = .ok l) : (id, Val.leaf l) ∈ s.store := by
  unfold readLeaf at h
  split at h
  · next l' heq =>
    cases h
    exact storeGet_mem heq
  · cases h

/-- The key `k` is held by no leaf record of the store. -/
def keyAbsent (s : TreeState) (k : String) : Bool :=
  s.store.all fun p =>
    match p.2 with
    | .leaf l => decide (k ∉ l.keys)
    | _ => true

/-- `keyAbsent` specialises to any leaf record of the store. -/
theorem keyAbsent_not_mem {s : TreeState} {k id : String} {l : LeafNode}
    (habs : keyAbsent s k = true) (hmem : (id, Val.leaf l) ∈ s.store) :
    k ∉ l.keys := by
  unfold keyAbsent at habs
  have := List.all_eq_true.mp habs _ hmem
  simpa using this

/-- `indexOf` returns `-1` on a list not containing the element. -/
theorem jsIndexOfGo_eq_neg_one {α} [DecidableEq α] {x : α} {xs : List α}
    (h : x ∉ xs) : ∀ i, jsIndexOfGo x xs i = -1 := by
  induction xs with
  | nil => intro i; rfl
  | cons a as ih =>
    intro i
    have hne : a ≠ x := fun hax => h (hax ▸ List.mem_cons_self a as)
    have hnm : x ∉ as := fun hm => h (List.mem_cons_of_mem a hm)
    simpa [jsIndexOfGo, hne] using ih hnm (i + 1)

/-- `xs.indexOf(x) = -1` when `x ∉ xs`. -/
theorem jsIndexOf_eq_neg_one {α} [DecidableEq α] {x : α} {xs : List α}
    (h : x ∉ xs) : jsIndexOf xs x = -1 :=
  jsIndexOfGo_eq_neg_one h 0

/-- `delete(k)` is `write({delete: [k]})`, which runs exactly one `remove`. -/
theorem deleteOp_eq_remove (s : TreeState) (k : String) :
    deleteOp s k = remove s k := by
  unfold deleteOp writeOp
  show [k].foldlM (fun s k => remove s k) s = remove s k
  show (remove s k >>= fun s' => pure s') = remove s k
  exact bind_pure (remove s k)

/-- **C9** (confirmed).  Deleting a key held by no leaf record is a no-op:
whenever the operation completes, the resulting tree state — every node
record, the metadata record, and the in-memory fields — is the original
one (`remove` returns before performing any write). -/
theorem C9_delete_absent_noop (s : TreeState) (k : String) (s' : TreeState)
    (habs : keyAbsent s k = true) (hok : deleteOp s k = .ok s') : s' = s := by
  rw [deleteOp_eq_remove] at hok
  unfold remove at hok
  split at hok
  · -- height 0: the root leaf cannot hold k
    split at hok
    · exact Except.noConfusion hok
    · next rootNode hr =>
      have hnm : k ∉ rootNode.keys := keyAbsent_not_mem habs (readLeaf_ok_mem hr)
      rw [if_pos (jsIndexOf_eq_neg_one hnm)] at hok
      exact (Except.ok.inj hok).symm
  · -- height > 0: the descent leaf cannot hold k
    split at hok
    · exact Except.noConfusion hok
    · next path hp =>
      split at hok
      · exact Except.noConfusion hok
      · next leafNode hr =>
        have hnm : k ∉ leafNode.keys := keyAbsent_not_mem habs (readLeaf_ok_mem hr)
        rw [if_pos (jsIndexOf_eq_neg_one hnm)] at hok
        exact (Except.ok.inj hok).symm

/-- Witness for `C9_delete_absent_noop`: the freshly initialized default
tree, deleting the absent key `"z"`. -/
theorem C9_delete_absent_noop_witness :
    keyAbsent (initState [] 32 32) "z" = true
    ∧ initState [] 32 32 = initState [] 32 32 :=
  ⟨by decide, C9_delete_absent_noop (initState [] 32 32) "z" (initState [] 32 32)
    (by decide) rfl⟩

/-- The limit check never fires at `limit: 0` (JS `0` is falsy). -/
theorem limitHit_some_zero (n : Nat) : limitHit (some 0) n = false := by
  simp [limitHit]

/-- The limit check never fires with no limit. -/
theorem limitHit_none (n : Nat) : limitHit none n = false := rfl

/-- `limit: 0` is falsy, so the limit check never fires, exactly as with no
limit: the in-leaf loop agrees. -/
theorem scanLeaf_limit_zero (node : LeafNode) (lt lte : Option String) :
    ∀ fuel i acc, scanLeaf node lt lte (some 0) fuel i acc
      = scanLeaf node lt lte none fuel i acc := by
  intro fuel
  induction fuel with
  | zero => intro _ _; rfl
  | succ n ih =>
    intro i acc
    unfold scanLeaf
    simp only [limitHit_some_zero, limitHit_none, Bool.false_eq_true, if_false]
    split
    · split
      · rfl
      · split
        · rfl
        · rw [ih]
    · rfl

/-- The sibling-chain loop agrees between `limit: 0` and no limit. -/
theorem listGo_limit_zero (s : TreeState) (gt gte lt lte : Option String) :
    ∀ fuel current acc, listGo s gt gte lt lte (some 0) fuel current acc
      = listGo s gt gte lt lte none fuel current acc := by
  intro fuel
  induction fuel with
  | zero => intro _ _; rfl
  | succ n ih =>
    intro current acc
    unfold listGo
    by_cases hc : current = ""
    · simp [hc]
    · simp only [hc, if_false]
      cases hr : readLeaf s current with
      | error e => rfl
      | ok node =>
        simp only []
        rw [scanLeaf_limit_zero]
        cases hs : scanLeaf node lt lte none (node.keys.length + 2)
            (if strTruthy gt then jsFindIndex node.keys (fun k => jsLtB (gt.getD "") k)
             else if strTruthy gte then jsFindIndex node.keys (fun k => jsLeB (gte.getD "") k)
             else 0) acc with
        | ret acc' => rfl
        | cont acc' => simp only [ih]

/-- **C10** (confirmed).  `list` with `limit: 0` behaves exactly as with the
option omitted (the JS truthiness check `args.limit && …` is false at `0`),
and `list` with `offset: 0` skips nothing — the engine never reads `offset`
at all, so it likewise behaves as if omitted. -/
theorem C10_zero_limit_offset_omitted (s : TreeState) (gt gte lt lte : Option String)
    (off : Option Nat) (rev : Bool) :
    list s ⟨gt, gte, lt, lte, some 0, off, rev⟩ = list s ⟨gt, gte, lt, lte, none, off, rev⟩
    ∧ list s ⟨gt, gte, lt, lte, none, some 0, rev⟩
        = list s ⟨gt, gte, lt, lte, none, none, rev⟩ := by
  constructor
  · unfold list
    cases hf : findLeaf s (jsOrS gte (jsOrS gt "")) with
    | error e => rfl
    | ok first => exact listGo_limit_zero s gt gte lt lte (s.store.length + 1) first []
  · rfl

/-- When `gt` is truthy, `listGo` never reads `gte`; when both `gte`
variants are falsy, the `gte` branch is never taken either way. -/
theorem listGo_gte_unread (s : TreeState) (gt gte₁ gte₂ lt lte : Option String)
    (limit : Option Nat)
    (h : strTruthy gt = true ∨ (strTruthy gte₁ = false ∧ strTruthy gte₂ = false)) :
    ∀ fuel current acc, listGo s gt gte₁ lt lte limit fuel current acc
      = listGo s gt gte₂ lt lte limit fuel current acc := by
  intro fuel
  induction fuel with
  | zero => intro _ _; rfl
  | succ n ih =>
    intro current acc
    unfold listGo
    by_cases hc : current = ""
    · simp [hc]
    · simp only [hc, if_false]
      cases hr : readLeaf s current with
      | error e => rfl
      | ok node =>
        simp only []
        have hstart :
            (if strTruthy gt then jsFindIndex node.keys (fun k => jsLtB (gt.getD "") k)
             else if strTruthy gte₁ then jsFindIndex node.keys (fun k => jsLeB (gte₁.getD "") k)
             else 0)
            = (if strTruthy gt then jsFindIndex node.keys (fun k => jsLtB (gt.getD "") k)
               else if strTruthy gte₂ then jsFindIndex node.keys (fun k => jsLeB (gte₂.getD "") k)
               else 0) := by
          rcases h with h | ⟨h₁, h₂⟩
          · simp [h]
          · simp [h₁, h₂]
        rw [hstart]
        cases hs : scanLeaf node lt lte limit (node.keys.length + 2)
            (if strTruthy gt then jsFindIndex node.keys (fun k => jsLtB (gt.getD "") k)
             else if strTruthy gte₂ then jsFindIndex node.keys (fun k => jsLeB (gte₂.getD "") k)
             else 0) acc with
        | ret acc' => rfl
        | cont acc' => simp only [ih]

/-- **C7** amended (corrected).  The engine's `list` performs no bounds
validation: supplying both `gt` and `gte` with the same key does not throw
and behaves exactly like supplying `gt` alone (the starting leaf coincides
and the in-leaf start index only consults `gt`), so the result can be
non-empty rather than the empty sequence the claim requires. -/
theorem C7_amended_gt_gte_behaves_as_gt (s : TreeState) (k : String)
    (lt lte : Option String) (limit offset : Option Nat) (rev : Bool) :
    list s { gt := some k, gte := some k, lt := lt, lte := lte, limit := limit,
             offset := offset, reverse := rev }
      = list s { gt := some k, gte := none, lt := lt, lte := lte, limit := limit,
                 offset := offset, reverse := rev } := by
  unfold list
  have hstart : jsOrS (some k) (jsOrS (some k) "") = jsOrS none (jsOrS (some k) "") := by
    by_cases hk : k = "" <;> simp [jsOrS, strTruthy, hk]
  rw [hstart]
  cases hf : findLeaf s (jsOrS none (jsOrS (some k) "")) with
  | error e => rfl
  | ok first =>
    apply listGo_gte_unread
    by_cases hk : k = ""
    · right
      constructor <;> simp [strTruthy, hk]
    · left
      simp [strTruthy, hk]

/-- **C7** counterexample.  On a single-leaf tree holding `a, b, c`, the
contradictory bounds `{gt: "a", gte: "a"}` are not rejected: `list` returns
the two entries past `"a"` rather than the empty sequence (and does not
throw). -/
theorem C7_bounds_not_rejected :
    listAfter treeABC { gt := some "a", gte := some "a" } =
      .ok [(some "b", some "2"), (some "c", some "3")]
    ∧ ([(some "b", some "2"), (some "c", some "3")] : List Entry) ≠ [] :=
  ⟨rfl, by decide⟩

end BPTree
